import Mathlib

/-!
Verification of the kreuzberg-batch orchestration engine against its
natural-language specification.

The development shallowly embeds the TypeScript sources under `src/scripts/`
(`config.ts` + the hash/ledger module, `fetcher.ts`, `processor.ts`,
`watcher.ts`, `main.ts`).  Pure functions become Lean functions; the stateful
pipeline becomes explicit state passing over the ledger (`ProcessedState`)
together with an explicit effect trace (`Eff`) recording filesystem writes,
copies, renames, extraction-gateway invocations and retry sleeps.  External
collaborators that the spec itself declares out of scope (the kreuzberg CLI
extraction service, the network fetch backends, MD5 digests, wall-clock time,
WHATWG URL parsing) are modelled as oracle parameters bundled in `Env` /
`FetchEnv`; everything the spec claims about is translated from the source.
-/

namespace KB

/-! ### Character-level string helpers

JavaScript string operations used by the sources (`split("\n")`,
`trim()`, `split(/\s+/)`, `startsWith`, `endsWith`) are modelled at the
`List Char` level so that they are structurally recursive and reduce in the
kernel. -/

/-- JS `\s` whitespace class (ASCII part; the sources only meet ASCII here). -/
def wsChar (c : Char) : Bool :=
  c == ' ' || c == '\t' || c == '\n' || c == '\r' || c == '\x0b' || c == '\x0c'

/-- JS `content.split("\n")`: splits on newlines, keeping empty segments. -/
def splitOnNl : List Char → List (List Char)
  | [] => [[]]
  | c :: rest =>
    match splitOnNl rest with
    | [] => [[]]
    | grp :: rest' => if c = '\n' then [] :: grp :: rest' else (c :: grp) :: rest'

/-- JS `line.trim()`. -/
def trimChars (cs : List Char) : List Char :=
  ((cs.dropWhile wsChar).reverse.dropWhile wsChar).reverse

/-- Worker for `tokens`: `cur` is the current token, reversed. -/
def tokensGo : List Char → List Char → List (List Char)
  | [], cur => if cur.isEmpty then [] else [cur.reverse]
  | c :: rest, cur =>
    if wsChar c then
      if cur.isEmpty then tokensGo rest [] else cur.reverse :: tokensGo rest []
    else tokensGo rest (c :: cur)

/-- JS `trimmed.split(/\s+/)` on an already-trimmed string: the list of
maximal whitespace-free tokens. -/
def tokens (cs : List Char) : List (List Char) :=
  tokensGo cs []

/-- JS `s.endsWith(suffix)`. -/
def strEndsWith (s suffix : String) : Bool :=
  suffix.toList.isSuffixOf s.toList

/-- Model of `path.join(a, b)` for the well-formed (non-empty, no trailing slash)
directory arguments the pipeline passes. -/
def joinPath (a b : String) : String :=
  a ++ "/" ++ b

/-- Model of `path.relative(base, p)` for the case arising in the pipeline, where `p`
lies strictly under `base`: strips `base ++ "/"`. -/
def relPath (base p : String) : String :=
  if (base.toList ++ ['/']).isPrefixOf p.toList then
    String.mk (p.toList.drop (base.toList.length + 1))
  else p

/-! ### Ledger data model (hash module, `types.ts` shapes)

`types.ts` is not under `src/`; the shapes of `ProcessedFileEntry` and
`ProcessedState` are fully determined by the hash module's code and the
spec's persisted-ledger JSON schema:
`{version, lastUpdated, files: map<key, {hash, outputPath, processedAt,
retries}>}`.  The JS object `files` is embedded as an association list whose
assignment semantics (`state.files[k] = v`) is upsert-in-place. -/

structure ProcessedFileEntry where
  hash : String
  outputPath : String
  processedAt : String
  retries : Nat
deriving Repr, DecidableEq

structure ProcessedState where
  version : String
  lastUpdated : String
  files : List (String × ProcessedFileEntry)
deriving Repr, DecidableEq

/-- JS `state.files[key]` lookup. -/
def lookupFile : List (String × ProcessedFileEntry) → String → Option ProcessedFileEntry
  | [], _ => none
  | (k, v) :: rest, key => if k = key then some v else lookupFile rest key

/-- JS `state.files[key] = entry` (upsert, replacing in place). -/
def insertFile : List (String × ProcessedFileEntry) → String → ProcessedFileEntry →
    List (String × ProcessedFileEntry)
  | [], key, entry => [(key, entry)]
  | (k, v) :: rest, key, entry =>
    if k = key then (key, entry) :: rest else (k, v) :: insertFile rest key entry

/-- Model of `STATE_VERSION` from the hash module. -/
def STATE_VERSION : String := "1.0.0"

/-- The fresh empty ledger the hash module builds (three occurrences in
`loadProcessedState`). -/
def freshState (nowStr : String) : ProcessedState :=
  { version := STATE_VERSION, lastUpdated := nowStr, files := [] }

/-- Model of `loadProcessedState(hashFilePath)`.  The disk interaction is modelled by
`disk : Option (Option ProcessedState)`: `none` means `existsSync` is false
(missing file); `some none` means `readFileSync`/`JSON.parse` threw (the
`catch` branch); `some (some st)` means the file parsed to `st`.  `nowStr`
models `new Date().toISOString()`. -/
def loadProcessedState (nowStr : String) (disk : Option (Option ProcessedState)) :
    ProcessedState :=
  match disk with
  | none => freshState nowStr
  | some none => freshState nowStr
  | some (some st) =>
    if st.version ≠ STATE_VERSION then freshState nowStr else st

/-- Effect alphabet of the pipeline: every filesystem/extraction side effect
the claims talk about.  `extractCall` records one invocation of the
extraction gateway (`extractDocument`) together with its outcome
(`none` = success, `some err` = failure with message `err`). -/
inductive Eff where
  | extractCall (inputPath : String) (attempt : Nat) (result : Option String)
  | sleepRetry (ms : Int)
  | copyFile (src dst : String)
  | write (path content : String)
  | writeState (path : String) (st : ProcessedState)
  | rename (src dst : String)
deriving Repr, DecidableEq

/-- Model of `saveProcessedState(hashFilePath, state)`: sets `state.lastUpdated` to now
and performs a single `writeFileSync(hashFilePath, JSON.stringify(state))`
directly on the live path (the serialized payload is modelled as the full
`ProcessedState` value).  Errors are caught and logged, so the function never
throws; the success path is modelled. -/
def saveProcessedState (hashFilePath : String) (st : ProcessedState) (nowStr : String) :
    ProcessedState × List Eff :=
  let st' := { st with lastUpdated := nowStr }
  (st', [Eff.writeState hashFilePath st'])

/-- Model of `isFileProcessed(state, inputPath, currentHash)`. -/
def isFileProcessed (st : ProcessedState) (inputPath : String) (currentHash : String) :
    Bool :=
  match lookupFile st.files inputPath with
  | none => false
  | some entry => entry.hash == currentHash

/-- Model of `markFileProcessed(state, inputPath, hash, outputPath, retries)`;
`nowStr` models `new Date().toISOString()` for the `processedAt` field. -/
def markFileProcessed (st : ProcessedState) (inputPath hash outputPath : String)
    (retries : Nat) (nowStr : String) : ProcessedState :=
  let entry : ProcessedFileEntry :=
    { hash := hash, outputPath := outputPath, processedAt := nowStr, retries := retries }
  { st with files := insertFile st.files inputPath entry }

/-! ### Configuration (`config.ts`)

Only the fields the core logic reads are carried.  Numeric environment
values are JS numbers that validation compares against 1 and 0, so they are
embedded as `Int` (negatives must be representable for `validateConfig`). -/

structure Config where
  watchInterval : Int
  concurrentJobs : Int
  recursive : Bool
  addTimestamp : Bool
  skipExisting : Bool
  preserveStructure : Bool
  hashFile : String
  fetchUrls : Bool
  playwrightEnabled : Bool
  browserlessEnabled : Bool
  maxRetries : Int
  retryDelay : Int
  inputDir : String
  outputDir : String
  errorDir : String
deriving Repr, DecidableEq

/-- Model of `validateConfig(config)`: the list of startup errors. -/
def validateConfig (config : Config) : List String :=
  (if config.watchInterval < 1 then ["WATCH_INTERVAL must be at least 1 second"] else []) ++
  (if config.concurrentJobs < 1 then ["CONCURRENT_JOBS must be at least 1"] else []) ++
  (if config.maxRetries < 0 then ["MAX_RETRIES cannot be negative"] else [])

/-! ### ContentResolver (`fetcher.ts`)

The three retrieval backends are network/browser collaborators the spec
treats as external; each layer's own attempt outcome is an oracle in
`FetchEnv`.  The layer-ordering logic of `fetchUrl` and the
disabled-by-configuration short circuits of layers 2 and 3 are translated
from the source.  WHATWG URL parsing (`new URL(...)` succeeding or throwing)
is the oracle `isURL`. -/

structure FetchResult where
  url : String
  html : String
  success : Bool
  method : String
  error : Option String
deriving Repr, DecidableEq

/-- Per-layer network/browser outcomes for a given URL: what
`fetchWithNative`'s `try` body, `fetchWithPlaywright`'s `try` body (when
enabled) and `fetchWithBrowserless`'s `try` body (when enabled) produce. -/
structure FetchEnv where
  native : String → FetchResult
  playwright : String → FetchResult
  browserless : String → FetchResult

/-- Layer 1 (`fetchWithNative`): always attempted; outcome from the oracle
(which accounts for HTTP errors and the requires-JavaScript heuristic, both
of which surface as a failed `FetchResult` through the `catch`). -/
def fetchWithNative (fenv : FetchEnv) (url : String) (_config : Config) : FetchResult :=
  fenv.native url

/-- Layer 2 (`fetchWithPlaywright`): returns a failure result immediately
when disabled by configuration, otherwise the oracle outcome. -/
def fetchWithPlaywright (fenv : FetchEnv) (url : String) (config : Config) : FetchResult :=
  if !config.playwrightEnabled then
    { url := url, html := "", success := false, method := "playwright",
      error := some "Playwright disabled" }
  else fenv.playwright url

/-- Layer 3 (`fetchWithBrowserless`): returns a failure result immediately
when disabled by configuration, otherwise the oracle outcome. -/
def fetchWithBrowserless (fenv : FetchEnv) (url : String) (config : Config) : FetchResult :=
  if !config.browserlessEnabled then
    { url := url, html := "", success := false, method := "browserless",
      error := some "Browserless disabled" }
  else fenv.browserless url

/-- Model of `fetchUrl(url, config)` with the 3-layer fallback; additionally returns
the list of layer numbers whose layer function was invoked, in invocation
order. -/
def fetchUrl (fenv : FetchEnv) (url : String) (config : Config) : FetchResult × List Nat :=
  let r1 := fetchWithNative fenv url config
  if r1.success then (r1, [1])
  else
    let r2 := fetchWithPlaywright fenv url config
    if r2.success then (r2, [1, 2])
    else
      let r3 := fetchWithBrowserless fenv url config
      if r3.success then (r3, [1, 2, 3])
      else
        ({ url := url, html := "", success := false, method := "browserless",
           error := some "All fetch methods failed" }, [1, 2, 3])

structure UrlEntry where
  url : String
  filename : Option String
deriving Repr, DecidableEq

/-- One line of the URL-list parse (`parseUrlFile`'s per-line map): comments
starting `#` yield nothing; otherwise the line is split on whitespace into
`URL [optional-output-name]` and dropped when `new URL(parts[0])` throws
(`isURL` false). -/
def parseUrlLine (isURL : String → Bool) (line : List Char) : Option UrlEntry :=
  let trimmed := trimChars line
  if trimmed.head? = some '#' then none
  else
    let parts := tokens trimmed
    let url := String.mk (parts.headD [])
    let filename := (parts.drop 1).head?.map String.mk
    if isURL url then some { url := url, filename := filename } else none

/-- Model of `parseUrlFile` applied to the file's text content: split on newlines,
drop blank lines, parse each remaining line. -/
def parseUrlFile (isURL : String → Bool) (content : String) : List UrlEntry :=
  let lines := (splitOnNl content.toList).filter (fun l => !(trimChars l).isEmpty)
  lines.filterMap (parseUrlLine isURL)

/-- The first whitespace token of a non-comment line — the only strings a
run of `parseUrlFile` ever passes to the URL-validity oracle. -/
def lineCandidate (line : List Char) : Option String :=
  let trimmed := trimChars line
  if trimmed.head? = some '#' then none
  else some (String.mk ((tokens trimmed).headD []))

/-! ### Jobs (`watcher.ts`, `types.ts` shapes) -/

inductive JobStatus where
  | pending
  | processing
  | completed
  | failed
deriving Repr, DecidableEq

structure FileEntry where
  path : String
  relativePath : String
  isDirectory : Bool
  isUrl : Bool
deriving Repr, DecidableEq

structure ProcessingJob where
  id : String
  entry : FileEntry
  status : JobStatus
  retries : Nat
  error : Option String
  startTime : Option Nat
  endTime : Option Nat
deriving Repr, DecidableEq

/-- Model of `createJobs(entries)` from `watcher.ts`: one pending job per entry with
id `job_${Date.now()}_${index}` and zero retries. -/
def createJobs (nowMs : Nat) (entries : List FileEntry) : List ProcessingJob :=
  entries.enum.map fun p =>
    { id := "job_" ++ toString nowMs ++ "_" ++ toString p.1,
      entry := p.2, status := JobStatus.pending, retries := 0,
      error := none, startTime := none, endTime := none }

/-! ### Oracle environment

External collaborators, per the spec's out-of-scope list: content digests
(`calculateFileHash` reads and MD5-digests the file's current bytes,
`calculateStringHash` digests a string), wall-clock time, the extraction
gateway (`extractDocument` spawns the kreuzberg CLI and on success writes
its stdout to the output path), `generateOutputPath` (wall-clock timestamped
naming plus directory creation), URL-list auto-detection
(`detectUrlsInTextFile` reads current file content) and URL-derived temp
filenames (`urlToFilename`, which uses WHATWG URL parsing and `Date.now`).
`extractOk path attempt` is `none` when the gateway succeeds on that attempt
and `some err` when it fails, where `err` is the job-level failure message
already including the source's `result.error || "Unknown error"` fallback. -/
structure Env where
  fileHash : String → String
  strHash : String → String
  nowStr : String
  nowMs : Nat
  outputPathFor : String → String
  extractOk : String → Nat → Option String
  isUrlListFile : String → Bool
  urlFileName : UrlEntry → String
  fenv : FetchEnv

/-! ### Processor (`processor.ts`) -/

/-- Model of `moveToError(inputPath, inputDir, errorDir, error)`: copy (not move) the
input into the error tree mirroring its relative input path, and write the
sibling `.error.txt` log with the error text, a timestamp and the original
path.  (The `mkdirSync` of the error subdirectory is not part of the effect
alphabet; the try/catch around the body is modelled on its success path.) -/
def moveToError (inputPath inputDir errorDir errMsg nowStr : String) : List Eff :=
  let errorPath := joinPath errorDir (relPath inputDir inputPath)
  let errorLogPath := errorPath ++ ".error.txt"
  [Eff.copyFile inputPath errorPath,
   Eff.write errorLogPath
     ("Error: " ++ errMsg ++ "\nTimestamp: " ++ nowStr ++ "\nOriginal path: " ++ inputPath)]

/-- The retry loop of `processJob` (`for attempt = 1; attempt <= maxRetries`).
`remaining` is the number of permitted attempts still available (initially
`maxRetries`), `attempt` the 1-based attempt counter, `lastError` and
`retries` the loop-carried values.  Returns
(success?, lastError, retries, effect trace). -/
def goAttempts (env : Env) (path : String) (retryDelay : Int) :
    Nat → Nat → String → Nat → Bool × String × Nat × List Eff
  | 0, _, lastError, retries => (false, lastError, retries, [])
  | remaining + 1, attempt, lastError, retries =>
    let outcome := env.extractOk path attempt
    let callEff := Eff.extractCall path attempt outcome
    match outcome with
    | none => (true, lastError, retries, [callEff])
    | some err =>
      if remaining > 0 then
        let rec_ := goAttempts env path retryDelay remaining (attempt + 1) err attempt
        (rec_.1, rec_.2.1, rec_.2.2.1,
          callEff :: Eff.sleepRetry retryDelay :: rec_.2.2.2)
      else (false, err, attempt, [callEff])

/-- Model of `processJob(job, config)`: drives one job through the gateway with the
bounded retry protocol; on terminal failure marks the job failed with the
last attempt's error and emits the quarantine artifacts via `moveToError`. -/
def processJob (env : Env) (job : ProcessingJob) (config : Config) :
    ProcessingJob × List Eff :=
  let job1 := { job with status := JobStatus.processing, startTime := some env.nowMs }
  let r := goAttempts env job.entry.path config.retryDelay config.maxRetries.toNat 1 "" job1.retries
  if r.1 then
    ({ job1 with
        status := JobStatus.completed
        endTime := some env.nowMs
        retries := r.2.2.1 }, r.2.2.2)
  else
    ({ job1 with
        status := JobStatus.failed
        error := some r.2.1
        endTime := some env.nowMs
        retries := r.2.2.1 },
     r.2.2.2 ++ moveToError job.entry.path config.inputDir config.errorDir r.2.1 env.nowStr)

/-! ### Batch scheduler (`main.ts` `processFiles` loop) -/

/-- Worker for `chunks`, fueled to mirror `for (i = 0; i < len; i += c)`
with `slice(i, i + c)`; for positive `c` the fuel `xs.length` is never
exhausted. -/
def chunksGo (c : Nat) : Nat → List ProcessingJob → List (List ProcessingJob)
  | 0, _ => []
  | _, [] => []
  | fuel + 1, xs => xs.take c :: chunksGo c fuel (xs.drop c)

/-- The batch partition `jobs.slice(i, i + concurrency)` of the scheduler
loop. -/
def chunks (c : Nat) (xs : List ProcessingJob) : List (List ProcessingJob) :=
  chunksGo c xs.length xs

/-- One job's turn inside a batch (the `batch.map(async (job) => ...)`
callback): recompute the file hash, run the job, and upsert the ledger entry
only when the job completed. -/
def batchJobStep (env : Env) (config : Config) (st : ProcessedState)
    (job : ProcessingJob) : ProcessedState × ProcessingJob × List Eff :=
  let fileHash := env.fileHash job.entry.path
  let r := processJob env job config
  let st' :=
    if r.1.status = JobStatus.completed then
      markFileProcessed st job.entry.path fileHash (env.outputPathFor job.entry.path)
        r.1.retries env.nowStr
    else st
  (st', r.1, r.2)

/-- One batch (`await Promise.all(batch.map(...))`).  All jobs of the batch
reach a terminal status before the batch returns; the concurrent completions
are linearized job by job (ledger keys written concurrently within a batch
are per-job upserts, so any linearization yields this state). -/
def runBatch (env : Env) (config : Config) :
    ProcessedState → List ProcessingJob → ProcessedState × List ProcessingJob × List Eff
  | st, [] => (st, [], [])
  | st, job :: rest =>
    let r := batchJobStep env config st job
    let r2 := runBatch env config r.1 rest
    (r2.1, r.2.1 :: r2.2.1, r.2.2 ++ r2.2.2)

/-- The sequential batch loop of `processFiles`: run a batch, then
`saveProcessedState` once, then continue with the next batch. -/
def runBatches (env : Env) (config : Config) :
    List (List ProcessingJob) → ProcessedState →
    ProcessedState × List ProcessingJob × List Eff
  | [], st => (st, [], [])
  | batch :: rest, st =>
    let r1 := runBatch env config st batch
    let hashFilePath := joinPath config.outputDir config.hashFile
    let sv := saveProcessedState hashFilePath r1.1 env.nowStr
    let r2 := runBatches env config rest sv.1
    (r2.1, r1.2.1 ++ r2.2.1, r1.2.2 ++ sv.2 ++ r2.2.2)

/-! ### Orchestrator (`main.ts`) -/

/-- The candidate filter of `processFiles`: drop `.txt` files auto-detected
as URL lists, then (when `skipExisting`) drop files whose freshly computed
hash matches the ledger entry; the survivors are `newFiles`. -/
def filterNewFiles (env : Env) (config : Config) (st : ProcessedState)
    (entries : List FileEntry) : List FileEntry :=
  entries.filter fun entry =>
    if strEndsWith entry.path ".txt" && env.isUrlListFile entry.path then false
    else
      let fileHash := env.fileHash entry.path
      !(config.skipExisting && isFileProcessed st entry.path fileHash)

/-- Model of `processFiles()`: scan results `entries` are filtered into `newFiles`;
if none remain, return early; otherwise build jobs and run the sequential
batch loop (which saves the ledger after each batch). -/
def processFiles (env : Env) (config : Config) (st : ProcessedState)
    (entries : List FileEntry) : ProcessedState × List ProcessingJob × List Eff :=
  let newFiles := filterNewFiles env config st entries
  if newFiles.isEmpty then (st, [], [])
  else
    let jobs := createJobs env.nowMs newFiles
    runBatches env config (chunks config.concurrentJobs.toNat jobs) st

/-- The body of `processUrlFile`'s per-URL loop: skip when the URL's string
hash matches its ledger entry; fetch through the 3-layer resolver and skip
on resolution exhaustion; otherwise cache the HTML, extract it, and mark
the URL processed only when extraction succeeded. -/
def processUrlFileStep (env : Env) (config : Config) (st : ProcessedState)
    (urlEntry : UrlEntry) : ProcessedState × List Eff :=
  let urlHash := env.strHash urlEntry.url
  if isFileProcessed st urlEntry.url urlHash then (st, [])
  else
    let result := (fetchUrl env.fenv urlEntry.url config).1
    if !result.success then (st, [])
    else
      let tempDir := joinPath config.inputDir ".url-cache"
      let tempPath := joinPath tempDir (env.urlFileName urlEntry)
      let outcome := env.extractOk tempPath 1
      let effs := [Eff.write tempPath result.html, Eff.extractCall tempPath 1 outcome]
      match outcome with
      | none =>
        (markFileProcessed st urlEntry.url urlHash (env.outputPathFor tempPath) 0 env.nowStr,
         effs)
      | some _ => (st, effs)

/-- The per-URL loop of `processUrlFile`, linearized URL by URL. -/
def processUrlLoop (env : Env) (config : Config) :
    ProcessedState → List UrlEntry → ProcessedState × List Eff
  | st, [] => (st, [])
  | st, u :: rest =>
    let r := processUrlFileStep env config st u
    let r2 := processUrlLoop env config r.1 rest
    (r2.1, r.2 ++ r2.2)

/-- Model of `processUrlFile(urlFilePath)` given the parsed URL entries of the file:
returns early when no URLs parsed; otherwise processes each URL in order and
finally marks the URL-list file itself processed (by whole-file hash, output
path `"url-list-processed"`) — unconditionally, whatever the per-URL
outcomes were. -/
def processUrlFile (env : Env) (config : Config) (st : ProcessedState)
    (urlFilePath : String) (urls : List UrlEntry) : ProcessedState × List Eff :=
  if urls.isEmpty then (st, [])
  else
    let r := processUrlLoop env config st urls
    (markFileProcessed r.1 urlFilePath (env.fileHash urlFilePath) "url-list-processed"
       0 env.nowStr, r.2)

/-- The per-URL-file loop of `processUrls` (skip when the whole-file hash
matches the ledger, else run `processUrlFile`), linearized file by file. -/
def processUrlsLoop (env : Env) (config : Config) :
    ProcessedState → List (String × List UrlEntry) → ProcessedState × List Eff
  | st, [] => (st, [])
  | st, uf :: rest =>
    let fileHash := env.fileHash uf.1
    if isFileProcessed st uf.1 fileHash then processUrlsLoop env config st rest
    else
      let r := processUrlFile env config st uf.1 uf.2
      let r2 := processUrlsLoop env config r.1 rest
      (r2.1, r.2 ++ r2.2)

/-- Model of `processUrls()`: nothing when URL fetching is disabled; otherwise
process each discovered URL-list file in turn. -/
def processUrls (env : Env) (config : Config) (st : ProcessedState)
    (urlFiles : List (String × List UrlEntry)) : ProcessedState × List Eff :=
  if !config.fetchUrls then (st, [])
  else processUrlsLoop env config st urlFiles

/-- One processing cycle (`runCycle` minus logging): the URL phase followed
by the file phase.  `urlFiles` are the discovered URL-list files with their
parsed entries; `entries` the directory-scan results. -/
def runCycle (env : Env) (config : Config) (st : ProcessedState)
    (urlFiles : List (String × List UrlEntry)) (entries : List FileEntry) :
    ProcessedState × List ProcessingJob × List Eff :=
  let ru := processUrls env config st urlFiles
  let rf := processFiles env config ru.1 entries
  (rf.1, rf.2.1, ru.2 ++ rf.2.2)

/-! ### Trace observations -/

/-- Is an effect an invocation of the extraction gateway? -/
def isExtractCall : Eff → Bool
  | Eff.extractCall _ _ _ => true
  | _ => false

/-- Number of extraction-gateway invocations in a trace. -/
def extractCalls (effs : List Eff) : Nat :=
  (effs.filter isExtractCall).length

/-- Is an effect a ledger save (a serialized-state write)? -/
def isSaveEff : Eff → Bool
  | Eff.writeState _ _ => true
  | _ => false

/-- Is an effect a file copy? -/
def isCopyEff : Eff → Bool
  | Eff.copyFile _ _ => true
  | _ => false

/-- Is an effect a plain content write? -/
def isWriteEff : Eff → Bool
  | Eff.write _ _ => true
  | _ => false

/-- Is an effect a rename? -/
def isRenameEff : Eff → Bool
  | Eff.rename _ _ => true
  | _ => false

/-- A terminal job status. -/
def terminalStatus (s : JobStatus) : Bool :=
  s = JobStatus.completed || s = JobStatus.failed

/-! ## Concrete fixtures for witnesses and counterexamples

`cfgDefault` is `loadConfig()`'s default configuration.  The environments
instantiate the external oracles at concrete values. -/

def cfgDefault : Config where
  watchInterval := 30
  concurrentJobs := 4
  recursive := true
  addTimestamp := true
  skipExisting := true
  preserveStructure := true
  hashFile := ".processed.json"
  fetchUrls := true
  playwrightEnabled := true
  browserlessEnabled := true
  maxRetries := 3
  retryDelay := 5000
  inputDir := "/files/input"
  outputDir := "/files/output"
  errorDir := "/files/error"

def fetchOkW (method : String) (u : String) : FetchResult where
  url := u
  html := "<html>body</html>"
  success := true
  method := method
  error := none

def fetchFailW (method : String) (u : String) : FetchResult where
  url := u
  html := ""
  success := false
  method := method
  error := some "HTTP 500: boom"

/-- All three backends succeed. -/
def fenvUp : FetchEnv where
  native := fetchOkW "fetch"
  playwright := fetchOkW "playwright"
  browserless := fetchOkW "browserless"

/-- Layer 1 fails, layers 2 and 3 would succeed. -/
def fenvL2 : FetchEnv where
  native := fetchFailW "fetch"
  playwright := fetchOkW "playwright"
  browserless := fetchOkW "browserless"

/-- Every backend fails. -/
def fenvDown : FetchEnv where
  native := fetchFailW "fetch"
  playwright := fetchFailW "playwright"
  browserless := fetchFailW "browserless"

/-- Extraction always succeeds; hashes are tagged copies of their input. -/
def envOk : Env where
  fileHash := fun p => "h(" ++ p ++ ")"
  strHash := fun s => "s(" ++ s ++ ")"
  nowStr := "2026-01-01T00:00:00.000Z"
  nowMs := 1767225600000
  outputPathFor := fun p => "/files/output/" ++ p ++ ".md"
  extractOk := fun _ _ => none
  isUrlListFile := fun p => strEndsWith p ".txt"
  urlFileName := fun _ => "page.html"
  fenv := fenvUp

/-- Extraction always fails with a fixed diagnostic. -/
def envFail : Env where
  fileHash := fun p => "h(" ++ p ++ ")"
  strHash := fun s => "s(" ++ s ++ ")"
  nowStr := "2026-01-01T00:00:00.000Z"
  nowMs := 1767225600000
  outputPathFor := fun p => "/files/output/" ++ p ++ ".md"
  extractOk := fun _ _ => some "kreuzberg exited 1"
  isUrlListFile := fun p => strEndsWith p ".txt"
  urlFileName := fun _ => "page.html"
  fenv := fenvUp

/-- Like `envOk` but every file currently fingerprints to `"def456"`. -/
def envDef456 : Env where
  fileHash := fun _ => "def456"
  strHash := fun s => "s(" ++ s ++ ")"
  nowStr := "2026-01-01T00:00:00.000Z"
  nowMs := 1767225600000
  outputPathFor := fun p => "/files/output/" ++ p ++ ".md"
  extractOk := fun _ _ => none
  isUrlListFile := fun _ => false
  urlFileName := fun _ => "page.html"
  fenv := fenvUp

def entryA : FileEntry where
  path := "/files/input/a.pdf"
  relativePath := "a.pdf"
  isDirectory := false
  isUrl := false

def jobA : ProcessingJob where
  id := "job_0_0"
  entry := entryA
  status := JobStatus.pending
  retries := 0
  error := none
  startTime := none
  endTime := none

/-- A ledger recording `a.pdf` with fingerprint `"abc123"`. -/
def stAbc : ProcessedState where
  version := STATE_VERSION
  lastUpdated := "t0"
  files := [("/files/input/a.pdf",
    { hash := "abc123", outputPath := "/files/output/a.md", processedAt := "t0",
      retries := 0 })]

/-! ## General lemmas about the embedding -/

theorem lookupFile_insertFile_self (fs : List (String × ProcessedFileEntry))
    (key : String) (e : ProcessedFileEntry) :
    lookupFile (insertFile fs key e) key = some e := by
  induction fs with
  | nil => simp [insertFile, lookupFile]
  | cons kv rest ih =>
    by_cases h : kv.1 = key
    · simp [insertFile, lookupFile, h]
    · simp [insertFile, lookupFile, h, ih]

theorem lookupFile_insertFile_ne (fs : List (String × ProcessedFileEntry))
    (key key' : String) (e : ProcessedFileEntry) (h : key ≠ key') :
    lookupFile (insertFile fs key e) key' = lookupFile fs key' := by
  induction fs with
  | nil => simp [insertFile, lookupFile, h]
  | cons kv rest ih =>
    by_cases hk : kv.1 = key
    · subst hk
      simp [insertFile, lookupFile, h]
    · by_cases hk' : kv.1 = key'
      · have hne : ¬ (key' = key) := fun he => h he.symm
        simp [insertFile, lookupFile, hk, hk', hne]
      · simp [insertFile, lookupFile, hk, hk', ih]

theorem isFileProcessed_mark_self (env : Env) (st : ProcessedState) (p o : String)
    (r : Nat) (t : String) :
    isFileProcessed (markFileProcessed st p (env.fileHash p) o r t) p (env.fileHash p) = true := by
  simp [isFileProcessed, markFileProcessed, lookupFile_insertFile_self]

theorem isFileProcessed_mark_ne (st : ProcessedState) (k h o : String) (r : Nat)
    (t : String) (p fresh : String) (hk : k ≠ p) :
    isFileProcessed (markFileProcessed st k h o r t) p fresh = isFileProcessed st p fresh := by
  simp [isFileProcessed, markFileProcessed, lookupFile_insertFile_ne _ _ _ _ hk]

theorem processJob_entry (env : Env) (job : ProcessingJob) (config : Config) :
    (processJob env job config).1.entry = job.entry := by
  unfold processJob
  cases h : (goAttempts env job.entry.path config.retryDelay config.maxRetries.toNat
      1 "" job.retries).1 <;> simp [h]

theorem processJob_status (env : Env) (job : ProcessingJob) (config : Config) :
    (processJob env job config).1.status = JobStatus.completed ∨
    (processJob env job config).1.status = JobStatus.failed := by
  unfold processJob
  cases h : (goAttempts env job.entry.path config.retryDelay config.maxRetries.toNat
      1 "" job.retries).1 <;> simp [h]

/-! ## Claims -/

/-- Claim C7: Loading the persisted ledger returns a fresh empty ledger
(current schema version, empty files map) — and, being a total function of
the modelled disk contents, never an error — in each of the three cases: the
ledger file is missing (`disk = none`), its content fails to parse
(`disk = some none`), or its version field differs from the runtime's
expected version. -/
theorem loadProcessedState_fresh_on_bad_disk (nowStr : String) :
    (freshState nowStr).version = STATE_VERSION ∧
    (freshState nowStr).files = [] ∧
    loadProcessedState nowStr none = freshState nowStr ∧
    loadProcessedState nowStr (some none) = freshState nowStr ∧
    ∀ st : ProcessedState, st.version ≠ STATE_VERSION →
      loadProcessedState nowStr (some (some st)) = freshState nowStr := by
  refine ⟨rfl, rfl, rfl, rfl, fun st h => ?_⟩
  simp [loadProcessedState, h]

/-- Witness for C7 at the spec's concrete scenario: a ledger file carrying
version `"0.9.0"` while the runtime expects `"1.0.0"`. -/
theorem loadProcessedState_fresh_on_bad_disk_witness :
    ({ version := "0.9.0", lastUpdated := "t0", files := [] } : ProcessedState).version ≠
      STATE_VERSION ∧
    loadProcessedState "2026-01-01T00:00:00.000Z"
      (some (some { version := "0.9.0", lastUpdated := "t0", files := [] })) =
      freshState "2026-01-01T00:00:00.000Z" :=
  ⟨by decide,
   (loadProcessedState_fresh_on_bad_disk "2026-01-01T00:00:00.000Z").2.2.2.2
     { version := "0.9.0", lastUpdated := "t0", files := [] } (by decide)⟩

/-- Claim C2: `isFileProcessed` returns `true` iff an entry exists for the key
and its stored hash equals the fresh fingerprint (it is a pure function of
its arguments — no side effects); consequently, in the `processFiles`
filter, a candidate that is not an auto-detected URL list and whose recorded
fingerprint differs from its current one survives into the re-queued
`newFiles`. -/
theorem isFileProcessed_iff_and_requeue (st : ProcessedState) (key fresh : String) :
    (isFileProcessed st key fresh = true ↔
      ∃ e, lookupFile st.files key = some e ∧ e.hash = fresh) ∧
    ∀ (env : Env) (config : Config) (entries : List FileEntry) (entry : FileEntry),
      entry ∈ entries →
      (strEndsWith entry.path ".txt" && env.isUrlListFile entry.path) = false →
      isFileProcessed st entry.path (env.fileHash entry.path) = false →
      entry ∈ filterNewFiles env config st entries := by
  constructor
  · unfold isFileProcessed
    cases h : lookupFile st.files key with
    | none => simp [h]
    | some e =>
      simp only [h, beq_iff_eq]
      constructor
      · intro he
        exact ⟨e, rfl, he⟩
      · rintro ⟨e', he', hh⟩
        cases he'
        exact hh
  · intro env config entries entry hmem hnoturl hnotproc
    unfold filterNewFiles
    rw [List.mem_filter]
    refine ⟨hmem, ?_⟩
    simp [hnoturl, hnotproc]

/-- Witness for C2 at the spec's concrete scenario: a file recorded with
fingerprint `"abc123"` whose content now fingerprints to `"def456"` is
reported unprocessed and is re-queued. -/
theorem isFileProcessed_iff_and_requeue_witness :
    isFileProcessed stAbc "/files/input/a.pdf" "def456" = false ∧
    entryA ∈ filterNewFiles envDef456 cfgDefault stAbc [entryA] := by
  constructor
  · decide
  · exact (isFileProcessed_iff_and_requeue stAbc "/files/input/a.pdf" "def456").2
      envDef456 cfgDefault [entryA] entryA (by decide) (by decide) (by decide)

/-- Claim C3, counterexample: The claim says every save uses the
write-temp-then-rename pattern and never rewrites the live ledger file in
place.  At a concrete input, `saveProcessedState` performs exactly one
filesystem operation: a direct write of the serialized ledger to the live
ledger path itself (`writeFileSync(hashFilePath, ...)`), and its operation
trace contains no rename at all — refuting the claimed pattern. -/
theorem saveProcessedState_counterexample :
    (saveProcessedState "/files/output/.processed.json" (freshState "t0") "t1").2 =
      [Eff.writeState "/files/output/.processed.json"
        { version := STATE_VERSION, lastUpdated := "t1", files := [] }] ∧
    ((saveProcessedState "/files/output/.processed.json" (freshState "t0") "t1").2.filter
      isRenameEff) = [] := by
  constructor <;> rfl

/-- Claim C3, amended: Every save of the ledger updates the ledger-wide
`lastUpdated` timestamp and writes the full serialized ledger — but does so
with a single direct `writeFileSync` to the live ledger path, in place: no
temporary file is written and no rename is performed (so the
crash-mid-write protection the spec requires is absent; save errors are
caught and logged rather than thrown). -/
theorem saveProcessedState_updates_timestamp_and_writes_in_place
    (p : String) (st : ProcessedState) (nowStr : String) :
    saveProcessedState p st nowStr =
      ({ st with lastUpdated := nowStr },
       [Eff.writeState p { st with lastUpdated := nowStr }]) ∧
    ((saveProcessedState p st nowStr).2.filter isRenameEff) = [] ∧
    (saveProcessedState p st nowStr).1.files = st.files := by
  refine ⟨rfl, rfl, rfl⟩

/-- Claim C5: The resolver attempts its layers strictly in order 1, 2, 3
(the invocation trace is always a prefix of `[1, 2, 3]`) and returns the
first successful layer's result without invoking any later layer; in
particular, when layer 1 fails and layer 2 succeeds, the layer-2 result is
returned with trace `[1, 2]` — layer 3 is never attempted. -/
theorem fetchUrl_layer_fallback (fenv : FetchEnv) (url : String) (config : Config) :
    ((fetchUrl fenv url config).2 = [1] ∨ (fetchUrl fenv url config).2 = [1, 2] ∨
      (fetchUrl fenv url config).2 = [1, 2, 3]) ∧
    ((fetchWithNative fenv url config).success = true →
      fetchUrl fenv url config = (fetchWithNative fenv url config, [1])) ∧
    ((fetchWithNative fenv url config).success = false →
      (fetchWithPlaywright fenv url config).success = true →
      fetchUrl fenv url config = (fetchWithPlaywright fenv url config, [1, 2])) ∧
    ((fetchWithNative fenv url config).success = false →
      (fetchWithPlaywright fenv url config).success = false →
      (fetchWithBrowserless fenv url config).success = true →
      fetchUrl fenv url config = (fetchWithBrowserless fenv url config, [1, 2, 3])) := by
  unfold fetchUrl
  cases h1 : (fetchWithNative fenv url config).success
  · cases h2 : (fetchWithPlaywright fenv url config).success
    · cases h3 : (fetchWithBrowserless fenv url config).success
      · simp [h1, h2, h3]
      · simp [h1, h2, h3]
    · simp [h1, h2]
  · simp [h1]

/-- Witness for C5: against `fenvL2` (layer 1 failing, layer 2 succeeding,
layer 3 also healthy), the resolver returns the layer-2 result with
invocation trace `[1, 2]`. -/
theorem fetchUrl_layer_fallback_witness :
    (fetchWithNative fenvL2 "https://x.test/a" cfgDefault).success = false ∧
    (fetchWithPlaywright fenvL2 "https://x.test/a" cfgDefault).success = true ∧
    fetchUrl fenvL2 "https://x.test/a" cfgDefault =
      (fetchWithPlaywright fenvL2 "https://x.test/a" cfgDefault, [1, 2]) :=
  ⟨by decide, by decide,
   (fetchUrl_layer_fallback fenvL2 "https://x.test/a" cfgDefault).2.2.1
     (by decide) (by decide)⟩

/-- Claim C9: For any URL-validity oracle agreeing with the WHATWG parser on
the two candidate tokens (`"https://a.example"` parses, `"not-a-url"` does
not), parsing the URL-list content
`"# comment\nhttps://a.example x\nnot-a-url\n"` yields exactly one entry,
`{url := "https://a.example", filename := "x"}`: the comment line is
skipped, the valid line is split on whitespace into URL and output name,
and the malformed line is skipped without failing. -/
theorem parseUrlFile_scenario (isURL : String → Bool)
    (h1 : isURL "https://a.example" = true) (h2 : isURL "not-a-url" = false) :
    parseUrlFile isURL "# comment\nhttps://a.example x\nnot-a-url\n" =
      [{ url := "https://a.example", filename := some "x" }] := by
  have hL : (splitOnNl ("# comment\nhttps://a.example x\nnot-a-url\n").toList).filter
      (fun l => !(trimChars l).isEmpty) =
      ["# comment".toList, "https://a.example x".toList, "not-a-url".toList] := by
    decide
  have e1 : parseUrlLine isURL ("# comment".toList) = none := rfl
  have e2 : parseUrlLine isURL ("https://a.example x".toList) =
      (if isURL "https://a.example" then
        some { url := "https://a.example", filename := some "x" } else none) := rfl
  have e3 : parseUrlLine isURL ("not-a-url".toList) =
      (if isURL "not-a-url" then
        some { url := "not-a-url", filename := none } else none) := rfl
  unfold parseUrlFile
  rw [hL]
  simp only [List.filterMap_cons, List.filterMap_nil, e1, e2, e3, h1, h2]
  simp

/-- Witness for C9 with a concrete oracle recognising exactly
`"https://a.example"`. -/
theorem parseUrlFile_scenario_witness :
    (fun s => s == "https://a.example") "https://a.example" = true ∧
    (fun s => s == "https://a.example") "not-a-url" = false ∧
    parseUrlFile (fun s => s == "https://a.example")
      "# comment\nhttps://a.example x\nnot-a-url\n" =
      [{ url := "https://a.example", filename := some "x" }] :=
  ⟨by decide, by decide,
   parseUrlFile_scenario (fun s => s == "https://a.example") (by decide) (by decide)⟩

/-- Claim C10: With `maxRetries = 0` — accepted by `validateConfig`, which
rejects only negative retry counts (given the other two numeric fields are
in range) — the retry loop body never runs: the extraction gateway is
invoked zero times, yet the job ends `failed` with the empty error message
(the initial `lastError = ""`), and the quarantine copy and error log are
still emitted for the input. -/
theorem processJob_zero_retries (env : Env) (job : ProcessingJob) (config : Config)
    (h0 : config.maxRetries = 0)
    (hw : 1 ≤ config.watchInterval) (hc : 1 ≤ config.concurrentJobs) :
    validateConfig config = [] ∧
    extractCalls (processJob env job config).2 = 0 ∧
    (processJob env job config).1.status = JobStatus.failed ∧
    (processJob env job config).1.error = some "" ∧
    (processJob env job config).2 =
      [Eff.copyFile job.entry.path
         (joinPath config.errorDir (relPath config.inputDir job.entry.path)),
       Eff.write
         (joinPath config.errorDir (relPath config.inputDir job.entry.path) ++ ".error.txt")
         ("Error: " ++ "" ++ "\nTimestamp: " ++ env.nowStr ++ "\nOriginal path: " ++
           job.entry.path)] := by
  have hv : validateConfig config = [] := by
    unfold validateConfig
    rw [h0]
    rw [if_neg (by omega), if_neg (by omega), if_neg (by omega)]
    rfl
  have hg : goAttempts env job.entry.path config.retryDelay config.maxRetries.toNat
      1 "" job.retries = (false, "", job.retries, []) := by
    rw [h0]
    rfl
  refine ⟨hv, ?_, ?_, ?_, ?_⟩ <;>
    simp [processJob, hg, moveToError, extractCalls, isExtractCall]

/-- Witness for C10 at the default configuration with `maxRetries := 0`. -/
theorem processJob_zero_retries_witness :
    ({ cfgDefault with maxRetries := 0 } : Config).maxRetries = 0 ∧
    1 ≤ ({ cfgDefault with maxRetries := 0 } : Config).watchInterval ∧
    1 ≤ ({ cfgDefault with maxRetries := 0 } : Config).concurrentJobs ∧
    validateConfig { cfgDefault with maxRetries := 0 } = [] ∧
    extractCalls (processJob envOk jobA { cfgDefault with maxRetries := 0 }).2 = 0 ∧
    (processJob envOk jobA { cfgDefault with maxRetries := 0 }).1.status =
      JobStatus.failed ∧
    (processJob envOk jobA { cfgDefault with maxRetries := 0 }).1.error = some "" :=
  have h := processJob_zero_retries envOk jobA { cfgDefault with maxRetries := 0 }
    (by decide) (by decide) (by decide)
  ⟨by decide, by decide, by decide, h.1, h.2.1, h.2.2.1, h.2.2.2.1⟩

/-- Claim C4: With `maxRetries = 3` and a gateway failing on attempts 1, 2 and
3 (with messages `e1`, `e2`, `e3`), processing a single job invokes the
gateway exactly 3 times, ends with the job `failed` carrying the last
attempt's error `e3` and retry counter 3, and emits exactly one quarantine
copy of the input (a copy, not a move — no rename appears in the trace)
into the error tree mirroring its relative input path, plus exactly one
sibling `.error.txt` log containing the error text, a timestamp, and the
original path. -/
theorem processJob_retry_bound (env : Env) (job : ProcessingJob) (config : Config)
    (e1 e2 e3 : String)
    (h3 : config.maxRetries = 3)
    (he1 : env.extractOk job.entry.path 1 = some e1)
    (he2 : env.extractOk job.entry.path 2 = some e2)
    (he3 : env.extractOk job.entry.path 3 = some e3) :
    extractCalls (processJob env job config).2 = 3 ∧
    (processJob env job config).1.status = JobStatus.failed ∧
    (processJob env job config).1.error = some e3 ∧
    (processJob env job config).1.retries = 3 ∧
    ((processJob env job config).2.filter isCopyEff) =
      [Eff.copyFile job.entry.path
        (joinPath config.errorDir (relPath config.inputDir job.entry.path))] ∧
    ((processJob env job config).2.filter isWriteEff) =
      [Eff.write
        (joinPath config.errorDir (relPath config.inputDir job.entry.path) ++ ".error.txt")
        ("Error: " ++ e3 ++ "\nTimestamp: " ++ env.nowStr ++ "\nOriginal path: " ++
          job.entry.path)] ∧
    ((processJob env job config).2.filter isRenameEff) = [] := by
  have hg : goAttempts env job.entry.path config.retryDelay config.maxRetries.toNat
      1 "" job.retries =
      (false, e3, 3,
        [Eff.extractCall job.entry.path 1 (some e1), Eff.sleepRetry config.retryDelay,
         Eff.extractCall job.entry.path 2 (some e2), Eff.sleepRetry config.retryDelay,
         Eff.extractCall job.entry.path 3 (some e3)]) := by
    rw [h3]
    show goAttempts env job.entry.path config.retryDelay 3 1 "" job.retries = _
    simp [goAttempts, he1, he2, he3]
  refine ⟨?_, ?_, ?_, ?_, ?_, ?_, ?_⟩ <;>
    simp [processJob, hg, moveToError, extractCalls, isExtractCall, isCopyEff,
      isWriteEff, isRenameEff]

/-- Witness for C4: the default configuration (`maxRetries = 3`) against the
always-failing gateway `envFail`. -/
theorem processJob_retry_bound_witness :
    cfgDefault.maxRetries = 3 ∧
    envFail.extractOk jobA.entry.path 1 = some "kreuzberg exited 1" ∧
    envFail.extractOk jobA.entry.path 2 = some "kreuzberg exited 1" ∧
    envFail.extractOk jobA.entry.path 3 = some "kreuzberg exited 1" ∧
    extractCalls (processJob envFail jobA cfgDefault).2 = 3 ∧
    (processJob envFail jobA cfgDefault).1.status = JobStatus.failed ∧
    (processJob envFail jobA cfgDefault).1.error = some "kreuzberg exited 1" ∧
    ((processJob envFail jobA cfgDefault).2.filter isCopyEff) =
      [Eff.copyFile "/files/input/a.pdf" "/files/error/a.pdf"] :=
  have h := processJob_retry_bound envFail jobA cfgDefault
    "kreuzberg exited 1" "kreuzberg exited 1" "kreuzberg exited 1"
    (by decide) (by decide) (by decide) (by decide)
  ⟨by decide, by decide, by decide, by decide, h.1, h.2.1, h.2.2.1, by decide⟩

/-! ### Lemmas for the batch scheduler -/

theorem chunksGo_join (c : Nat) (hc : 0 < c) :
    ∀ (fuel : Nat) (xs : List ProcessingJob), xs.length ≤ fuel →
      (chunksGo c fuel xs).flatten = xs := by
  intro fuel
  induction fuel with
  | zero =>
    intro xs hx
    cases xs with
    | nil => rfl
    | cons a as => simp at hx
  | succ n ih =>
    intro xs hx
    cases xs with
    | nil => rfl
    | cons a as =>
      have hstep : chunksGo c (n + 1) (a :: as) =
          (a :: as).take c :: chunksGo c n ((a :: as).drop c) := rfl
      have hx' : as.length + 1 ≤ n + 1 := by simpa using hx
      rw [hstep, List.flatten_cons]
      rw [ih ((a :: as).drop c) (by simp [List.length_drop]; omega)]
      exact List.take_append_drop c (a :: as)

theorem chunksGo_mem_length (c : Nat) :
    ∀ (fuel : Nat) (xs : List ProcessingJob) (b : List ProcessingJob),
      b ∈ chunksGo c fuel xs → b.length ≤ c := by
  intro fuel
  induction fuel with
  | zero =>
    intro xs b hb
    simp [chunksGo] at hb
  | succ n ih =>
    intro xs b hb
    cases xs with
    | nil => simp [chunksGo] at hb
    | cons a as =>
      have hstep : chunksGo c (n + 1) (a :: as) =
          (a :: as).take c :: chunksGo c n ((a :: as).drop c) := rfl
      rw [hstep] at hb
      rcases List.mem_cons.mp hb with h | h
      · subst h
        exact List.length_take_le c (a :: as)
      · exact ih _ _ h

theorem chunks_join (c : Nat) (hc : 0 < c) (xs : List ProcessingJob) :
    (chunks c xs).flatten = xs :=
  chunksGo_join c hc xs.length xs le_rfl

theorem chunks_mem_length (c : Nat) (xs b : List ProcessingJob)
    (hb : b ∈ chunks c xs) : b.length ≤ c :=
  chunksGo_mem_length c xs.length xs b hb

theorem goAttempts_no_save (env : Env) (path : String) (delay : Int) :
    ∀ (remaining attempt : Nat) (le : String) (r : Nat),
      ∀ e ∈ (goAttempts env path delay remaining attempt le r).2.2.2,
        isSaveEff e = false := by
  intro remaining
  induction remaining with
  | zero => intro attempt le r e he; simp [goAttempts] at he
  | succ n ih =>
    intro attempt le r e he
    rw [goAttempts] at he
    rcases h : env.extractOk path attempt with _ | err
    · rw [h] at he
      simp at he
      rw [he]
      rfl
    · rw [h] at he
      by_cases hn : n > 0
      · simp only [hn, if_true, List.mem_cons] at he
        rcases he with he | he | he
        · rw [he]; rfl
        · rw [he]; rfl
        · exact ih _ _ _ e he
      · simp only [hn, if_false, List.mem_cons] at he
        rcases he with he | he
        · rw [he]; rfl
        · simp at he

theorem processJob_no_save (env : Env) (job : ProcessingJob) (config : Config) :
    ∀ e ∈ (processJob env job config).2, isSaveEff e = false := by
  intro e he
  unfold processJob at he
  rcases h : (goAttempts env job.entry.path config.retryDelay config.maxRetries.toNat
      1 "" job.retries).1 with _ | _
  · simp only [h, if_false, Bool.false_eq_true] at he
    rcases List.mem_append.mp he with he | he
    · exact goAttempts_no_save env job.entry.path config.retryDelay _ _ _ _ e he
    · unfold moveToError at he
      rcases List.mem_cons.mp he with he | he
      · rw [he]; rfl
      · rcases List.mem_cons.mp he with he | he
        · rw [he]; rfl
        · simp at he
  · simp only [h, if_true] at he
    exact goAttempts_no_save env job.entry.path config.retryDelay _ _ _ _ e he

theorem runBatch_no_save (env : Env) (config : Config) :
    ∀ (batch : List ProcessingJob) (st : ProcessedState),
      ∀ e ∈ (runBatch env config st batch).2.2, isSaveEff e = false := by
  intro batch
  induction batch with
  | nil => intro st e he; simp [runBatch] at he
  | cons job rest ih =>
    intro st e he
    rw [runBatch] at he
    rcases List.mem_append.mp he with he | he
    · exact processJob_no_save env job config e he
    · exact ih _ e he

theorem runBatch_terminal (env : Env) (config : Config) :
    ∀ (batch : List ProcessingJob) (st : ProcessedState),
      ∀ j ∈ (runBatch env config st batch).2.1, terminalStatus j.status = true := by
  intro batch
  induction batch with
  | nil => intro st j hj; simp [runBatch] at hj
  | cons job rest ih =>
    intro st j hj
    rw [runBatch] at hj
    rcases List.mem_cons.mp hj with hj | hj
    · have hs := processJob_status env job config
      have : j.status = (processJob env job config).1.status := by
        rw [hj]; rfl
      rw [this]
      rcases hs with h | h <;> simp [terminalStatus, h]
    · exact ih _ j hj

theorem runBatches_terminal (env : Env) (config : Config) :
    ∀ (bs : List (List ProcessingJob)) (st : ProcessedState),
      ∀ j ∈ (runBatches env config bs st).2.1, terminalStatus j.status = true := by
  intro bs
  induction bs with
  | nil => intro st j hj; simp [runBatches] at hj
  | cons b rest ih =>
    intro st j hj
    rw [runBatches] at hj
    rcases List.mem_append.mp hj with hj | hj
    · exact runBatch_terminal env config b st j hj
    · exact ih _ j hj

theorem runBatches_segments (env : Env) (config : Config) :
    ∀ (bs : List (List ProcessingJob)) (st : ProcessedState),
      ∃ segs : List (List Eff),
        (runBatches env config bs st).2.2 = segs.flatten ∧
        segs.length = bs.length ∧
        ∀ seg ∈ segs, ∃ stx : ProcessedState,
          seg.getLast? =
            some (Eff.writeState (joinPath config.outputDir config.hashFile) stx) ∧
          (seg.dropLast.filter isSaveEff) = [] := by
  intro bs
  induction bs with
  | nil =>
    intro st
    exact ⟨[], rfl, rfl, by simp⟩
  | cons b rest ih =>
    intro st
    obtain ⟨segs, hjoin, hlen, hprop⟩ :=
      ih (saveProcessedState (joinPath config.outputDir config.hashFile)
        (runBatch env config st b).1 env.nowStr).1
    refine ⟨((runBatch env config st b).2.2 ++
      [Eff.writeState (joinPath config.outputDir config.hashFile)
        { (runBatch env config st b).1 with lastUpdated := env.nowStr }]) :: segs,
      ?_, by simp [hlen], ?_⟩
    · rw [runBatches]
      simp only [List.flatten_cons]
      rw [hjoin]
      simp [saveProcessedState]
    · intro seg hseg
      rcases List.mem_cons.mp hseg with hseg | hseg
      · subst hseg
        refine ⟨{ (runBatch env config st b).1 with lastUpdated := env.nowStr }, ?_, ?_⟩
        · exact List.getLast?_concat _
        · rw [List.dropLast_concat]
          rw [List.filter_eq_nil_iff]
          intro e he
          simp [runBatch_no_save env config b st e he]
      · exact hprop seg hseg

/-- Claim C6: For a positive concurrency limit (the domain guaranteed by
configuration validation), the scheduler loop partitions the job list into
sequential batches of size at most the limit whose concatenation is exactly
the job list; every job of the run reaches a terminal status (completed or
failed); and the effect trace decomposes into one contiguous segment per
batch, each segment ending in exactly one ledger save — so a batch's jobs
all reach terminal status before a single persist, and no later batch's
effects precede it. -/
theorem runBatches_partitions_and_persists (env : Env) (config : Config)
    (st : ProcessedState) (jobs : List ProcessingJob)
    (hc : 1 ≤ config.concurrentJobs) :
    (∀ b ∈ chunks config.concurrentJobs.toNat jobs,
      b.length ≤ config.concurrentJobs.toNat) ∧
    (chunks config.concurrentJobs.toNat jobs).flatten = jobs ∧
    (∀ j ∈ (runBatches env config (chunks config.concurrentJobs.toNat jobs) st).2.1,
      terminalStatus j.status = true) ∧
    ∃ segs : List (List Eff),
      (runBatches env config (chunks config.concurrentJobs.toNat jobs) st).2.2 =
        segs.flatten ∧
      segs.length = (chunks config.concurrentJobs.toNat jobs).length ∧
      ∀ seg ∈ segs, ∃ stx : ProcessedState,
        seg.getLast? =
          some (Eff.writeState (joinPath config.outputDir config.hashFile) stx) ∧
        (seg.dropLast.filter isSaveEff) = [] := by
  have hcpos : 0 < config.concurrentJobs.toNat := by omega
  exact ⟨fun b hb => chunks_mem_length _ jobs b hb,
    chunks_join _ hcpos jobs,
    runBatches_terminal env config _ st,
    runBatches_segments env config _ st⟩

/-- Witness for C6: the spec's concurrency scenario — limit 2 and 5 jobs —
under the always-succeeding gateway. -/
theorem runBatches_partitions_and_persists_witness :
    1 ≤ ({ cfgDefault with concurrentJobs := 2 } : Config).concurrentJobs ∧
    ((∀ b ∈ chunks 2 (createJobs 0 [entryA, entryA, entryA, entryA, entryA]),
        b.length ≤ 2) ∧
      (chunks 2 (createJobs 0 [entryA, entryA, entryA, entryA, entryA])).flatten =
        createJobs 0 [entryA, entryA, entryA, entryA, entryA] ∧
      (∀ j ∈ (runBatches envOk { cfgDefault with concurrentJobs := 2 }
          (chunks 2 (createJobs 0 [entryA, entryA, entryA, entryA, entryA]))
          (freshState "t0")).2.1, terminalStatus j.status = true) ∧
      ∃ segs : List (List Eff),
        (runBatches envOk { cfgDefault with concurrentJobs := 2 }
          (chunks 2 (createJobs 0 [entryA, entryA, entryA, entryA, entryA]))
          (freshState "t0")).2.2 = segs.flatten ∧
        segs.length =
          (chunks 2 (createJobs 0 [entryA, entryA, entryA, entryA, entryA])).length ∧
        ∀ seg ∈ segs, ∃ stx : ProcessedState,
          seg.getLast? = some (Eff.writeState
            (joinPath ({ cfgDefault with concurrentJobs := 2 } : Config).outputDir
              ({ cfgDefault with concurrentJobs := 2 } : Config).hashFile) stx) ∧
          (seg.dropLast.filter isSaveEff) = []) :=
  ⟨by decide,
   runBatches_partitions_and_persists envOk { cfgDefault with concurrentJobs := 2 }
     (freshState "t0") (createJobs 0 [entryA, entryA, entryA, entryA, entryA])
     (by decide)⟩

/-- Claim C1, counterexample: The claim says every entry in the ledger's
files map corresponds to a job that reached `completed`.  Concretely:
processing a URL-list file containing one URL whose extraction fails (the
only gateway invocation of the run returns an error) still ends with a
ledger entry — for the URL-list file's own key, written unconditionally
after the traversal (`main.ts` marks the list file processed even when
every contained URL failed).  So an entry exists although nothing
completed. -/
theorem processUrlFile_marks_list_despite_failure :
    (processUrlFile envFail cfgDefault (freshState "t0") "/files/input/urls.txt"
      [{ url := "https://x.test/a", filename := none }]).1.files =
      [("/files/input/urls.txt",
        { hash := "h(/files/input/urls.txt)", outputPath := "url-list-processed",
          processedAt := "2026-01-01T00:00:00.000Z", retries := 0 })] ∧
    (processUrlFile envFail cfgDefault (freshState "t0") "/files/input/urls.txt"
      [{ url := "https://x.test/a", filename := none }]).2 =
      [Eff.write "/files/input/.url-cache/page.html" "<html>body</html>",
       Eff.extractCall "/files/input/.url-cache/page.html" 1
         (some "kreuzberg exited 1")] := by
  constructor <;> decide

/-- Claim C1, amended: Within the scheduler proper the claim holds: a file
job that ends `failed` leaves the ledger exactly as it was (never creating
or overwriting an entry for its key); any ledger change made on behalf of a
file job is the upsert for that job's key and happens only when the job
completed; and a URL's entry is written only when that URL's extraction
succeeded.  The one exception forced by the code: after traversing a
non-empty URL-list file, the list file's own key is marked processed
unconditionally, whatever the outcomes of its contained URLs were. -/
theorem ledger_written_only_on_success_except_list_marker
    (env : Env) (config : Config) (st : ProcessedState) :
    (∀ job : ProcessingJob,
      (batchJobStep env config st job).2.1.status = JobStatus.failed →
      (batchJobStep env config st job).1 = st) ∧
    (∀ job : ProcessingJob, (batchJobStep env config st job).1 ≠ st →
      (batchJobStep env config st job).2.1.status = JobStatus.completed ∧
      (batchJobStep env config st job).1 =
        markFileProcessed st job.entry.path (env.fileHash job.entry.path)
          (env.outputPathFor job.entry.path)
          (batchJobStep env config st job).2.1.retries env.nowStr) ∧
    (∀ u : UrlEntry, (processUrlFileStep env config st u).1 ≠ st →
      env.extractOk (joinPath (joinPath config.inputDir ".url-cache")
        (env.urlFileName u)) 1 = none ∧
      (processUrlFileStep env config st u).1 =
        markFileProcessed st u.url (env.strHash u.url)
          (env.outputPathFor (joinPath (joinPath config.inputDir ".url-cache")
            (env.urlFileName u))) 0 env.nowStr) ∧
    (∀ (listPath : String) (urls : List UrlEntry), urls ≠ [] →
      ∃ stMid : ProcessedState,
        (processUrlFile env config st listPath urls).1 =
          markFileProcessed stMid listPath (env.fileHash listPath)
            "url-list-processed" 0 env.nowStr) := by
  refine ⟨?_, ?_, ?_, ?_⟩
  · intro job hf
    unfold batchJobStep at hf ⊢
    by_cases hcs : (processJob env job config).1.status = JobStatus.completed
    · simp only at hf
      rw [hf] at hcs
      exact absurd hcs (by simp)
    · simp [hcs]
  · intro job hne
    unfold batchJobStep at hne ⊢
    by_cases hcs : (processJob env job config).1.status = JobStatus.completed
    · simp [hcs]
    · simp [hcs] at hne
  · intro u hne
    unfold processUrlFileStep at hne ⊢
    by_cases hp : isFileProcessed st u.url (env.strHash u.url) = true
    · simp [hp] at hne
    · by_cases hfetch : (fetchUrl env.fenv u.url config).1.success = true
      · cases hex : env.extractOk (joinPath (joinPath config.inputDir ".url-cache")
            (env.urlFileName u)) 1 with
        | none => simp [hp, hfetch, hex]
        | some e => simp [hp, hfetch, hex] at hne
      · simp [hp, hfetch] at hne
  · intro listPath urls hurls
    have hne : urls.isEmpty = false := by
      cases urls with
      | nil => exact absurd rfl hurls
      | cons a as => rfl
    refine ⟨(processUrlLoop env config st urls).1, ?_⟩
    unfold processUrlFile
    simp [hne]

/-- Witness for the amended C1: under the always-failing gateway, the failed
job `jobA` leaves the fresh ledger untouched, while the traversal of a
one-URL list file still marks the list file's key. -/
theorem ledger_written_only_on_success_except_list_marker_witness :
    (batchJobStep envFail cfgDefault (freshState "t0") jobA).2.1.status =
      JobStatus.failed ∧
    (batchJobStep envFail cfgDefault (freshState "t0") jobA).1 = freshState "t0" ∧
    ([{ url := "https://x.test/a", filename := none }] : List UrlEntry) ≠ [] ∧
    ∃ stMid : ProcessedState,
      (processUrlFile envFail cfgDefault (freshState "t0") "/files/input/urls.txt"
        [{ url := "https://x.test/a", filename := none }]).1 =
        markFileProcessed stMid "/files/input/urls.txt"
          (envFail.fileHash "/files/input/urls.txt") "url-list-processed" 0
          envFail.nowStr :=
  ⟨by decide,
   (ledger_written_only_on_success_except_list_marker envFail cfgDefault
     (freshState "t0")).1 jobA (by decide),
   by decide,
   (ledger_written_only_on_success_except_list_marker envFail cfgDefault
     (freshState "t0")).2.2.2 "/files/input/urls.txt"
     [{ url := "https://x.test/a", filename := none }] (by decide)⟩

/-! ### Lemmas for the idempotence claim -/

theorem isFileProcessed_files_congr (st1 st2 : ProcessedState) (p f : String)
    (h : st1.files = st2.files) :
    isFileProcessed st1 p f = isFileProcessed st2 p f := by
  unfold isFileProcessed
  rw [h]

theorem batchJobStep_pres (env : Env) (config : Config) (st : ProcessedState)
    (job : ProcessingJob) (p : String)
    (h : isFileProcessed st p (env.fileHash p) = true) :
    isFileProcessed (batchJobStep env config st job).1 p (env.fileHash p) = true := by
  unfold batchJobStep
  by_cases hcs : (processJob env job config).1.status = JobStatus.completed
  · simp only [hcs, if_true]
    by_cases hk : job.entry.path = p
    · subst hk
      exact isFileProcessed_mark_self env st job.entry.path _ _ _
    · rw [isFileProcessed_mark_ne st _ _ _ _ _ _ _ hk]
      exact h
  · simpa [hcs] using h

theorem runBatch_pres (env : Env) (config : Config) (p : String) :
    ∀ (batch : List ProcessingJob) (st : ProcessedState),
      isFileProcessed st p (env.fileHash p) = true →
      isFileProcessed (runBatch env config st batch).1 p (env.fileHash p) = true := by
  intro batch
  induction batch with
  | nil => intro st h; exact h
  | cons job rest ih =>
    intro st h
    rw [runBatch]
    exact ih _ (batchJobStep_pres env config st job p h)

theorem save_pres (hp : String) (st : ProcessedState) (t p f : String) :
    isFileProcessed (saveProcessedState hp st t).1 p f = isFileProcessed st p f :=
  isFileProcessed_files_congr _ _ _ _ rfl

theorem runBatches_pres (env : Env) (config : Config) (p : String) :
    ∀ (bs : List (List ProcessingJob)) (st : ProcessedState),
      isFileProcessed st p (env.fileHash p) = true →
      isFileProcessed (runBatches env config bs st).1 p (env.fileHash p) = true := by
  intro bs
  induction bs with
  | nil => intro st h; exact h
  | cons b rest ih =>
    intro st h
    rw [runBatches]
    refine ih _ ?_
    rw [save_pres]
    exact runBatch_pres env config p b st h

theorem processFiles_pres (env : Env) (config : Config) (st : ProcessedState)
    (entries : List FileEntry) (p : String)
    (h : isFileProcessed st p (env.fileHash p) = true) :
    isFileProcessed (processFiles env config st entries).1 p (env.fileHash p) = true := by
  unfold processFiles
  by_cases he : (filterNewFiles env config st entries).isEmpty
  · simpa [he] using h
  · simp only [he, Bool.false_eq_true, if_false]
    exact runBatches_pres env config p _ st h

theorem processUrlFileStep_pres (env : Env) (config : Config) (st : ProcessedState)
    (u : UrlEntry) (p : String) (hu : u.url ≠ p)
    (h : isFileProcessed st p (env.fileHash p) = true) :
    isFileProcessed (processUrlFileStep env config st u).1 p (env.fileHash p) = true := by
  unfold processUrlFileStep
  by_cases hp : isFileProcessed st u.url (env.strHash u.url) = true
  · simpa [hp] using h
  · by_cases hfetch : (fetchUrl env.fenv u.url config).1.success = true
    · cases hex : env.extractOk (joinPath (joinPath config.inputDir ".url-cache")
          (env.urlFileName u)) 1 with
      | none =>
        simp only [hp, hfetch, hex, Bool.false_eq_true, if_false, Bool.not_true]
        rw [isFileProcessed_mark_ne st _ _ _ _ _ _ _ hu]
        exact h
      | some e => simpa [hp, hfetch, hex] using h
    · simpa [hp, hfetch] using h

theorem processUrlLoop_pres (env : Env) (config : Config) (p : String) :
    ∀ (us : List UrlEntry) (st : ProcessedState),
      (∀ u ∈ us, u.url ≠ p) →
      isFileProcessed st p (env.fileHash p) = true →
      isFileProcessed (processUrlLoop env config st us).1 p (env.fileHash p) = true := by
  intro us
  induction us with
  | nil => intro st _ h; exact h
  | cons u rest ih =>
    intro st hus h
    rw [processUrlLoop]
    exact ih _ (fun v hv => hus v (List.mem_cons_of_mem u hv))
      (processUrlFileStep_pres env config st u p (hus u (List.mem_cons_self u rest)) h)

theorem processUrlFile_pres (env : Env) (config : Config) (st : ProcessedState)
    (q : String) (us : List UrlEntry) (p : String)
    (hus : ∀ u ∈ us, u.url ≠ p)
    (h : isFileProcessed st p (env.fileHash p) = true) :
    isFileProcessed (processUrlFile env config st q us).1 p (env.fileHash p) = true := by
  unfold processUrlFile
  by_cases he : us.isEmpty
  · simpa [he] using h
  · simp only [he, Bool.false_eq_true, if_false]
    have hloop := processUrlLoop_pres env config p us st hus h
    by_cases hq : q = p
    · subst hq
      exact isFileProcessed_mark_self env _ q _ _ _
    · rw [isFileProcessed_mark_ne _ _ _ _ _ _ _ _ hq]
      exact hloop

/-- After processing a non-empty URL-list file, the list file's own key is
hash-matched in the ledger (it is the final unconditional mark). -/
theorem processUrlFile_self_matched (env : Env) (config : Config) (st : ProcessedState)
    (q : String) (us : List UrlEntry) (hne : us.isEmpty = false) :
    isFileProcessed (processUrlFile env config st q us).1 q (env.fileHash q) = true := by
  unfold processUrlFile
  simp only [hne, Bool.false_eq_true, if_false]
  exact isFileProcessed_mark_self env _ q _ _ _

theorem processUrlsLoop_pres (env : Env) (config : Config) (p : String) :
    ∀ (ufs : List (String × List UrlEntry)) (st : ProcessedState),
      (∀ uf ∈ ufs, ∀ u ∈ uf.2, u.url ≠ p) →
      isFileProcessed st p (env.fileHash p) = true →
      isFileProcessed (processUrlsLoop env config st ufs).1 p (env.fileHash p) = true := by
  intro ufs
  induction ufs with
  | nil => intro st _ h; exact h
  | cons uf rest ih =>
    intro st hufs h
    rw [processUrlsLoop]
    by_cases hskip : isFileProcessed st uf.1 (env.fileHash uf.1) = true
    · simp only [hskip, if_true]
      exact ih _ (fun v hv => hufs v (List.mem_cons_of_mem uf hv)) h
    · simp only [hskip, Bool.false_eq_true, if_false]
      exact ih _ (fun v hv => hufs v (List.mem_cons_of_mem uf hv))
        (processUrlFile_pres env config st uf.1 uf.2 p
          (hufs uf (List.mem_cons_self uf rest)) h)

theorem batchJobStep_result (env : Env) (config : Config) (st : ProcessedState)
    (job : ProcessingJob) :
    (batchJobStep env config st job).2.1 = (processJob env job config).1 := rfl

theorem runBatch_establish (env : Env) (config : Config) :
    ∀ (batch : List ProcessingJob) (st : ProcessedState),
      ∀ j ∈ (runBatch env config st batch).2.1, j.status = JobStatus.completed →
        isFileProcessed (runBatch env config st batch).1 j.entry.path
          (env.fileHash j.entry.path) = true := by
  intro batch
  induction batch with
  | nil => intro st j hj; simp [runBatch] at hj
  | cons job rest ih =>
    intro st j hj hc
    rw [runBatch] at hj ⊢
    rcases List.mem_cons.mp hj with hj | hj
    · have hjr : j = (processJob env job config).1 := hj
      have hent : j.entry = job.entry := by rw [hjr, processJob_entry]
      have hstep : isFileProcessed (batchJobStep env config st job).1 j.entry.path
          (env.fileHash j.entry.path) = true := by
        have hcs : (processJob env job config).1.status = JobStatus.completed := by
          rw [← hjr]; exact hc
        unfold batchJobStep
        simp only [hcs, if_true]
        rw [hent]
        exact isFileProcessed_mark_self env st job.entry.path _ _ _
      exact runBatch_pres env config _ rest _ hstep
    · exact ih _ j hj hc

theorem runBatches_establish (env : Env) (config : Config) :
    ∀ (bs : List (List ProcessingJob)) (st : ProcessedState),
      ∀ j ∈ (runBatches env config bs st).2.1, j.status = JobStatus.completed →
        isFileProcessed (runBatches env config bs st).1 j.entry.path
          (env.fileHash j.entry.path) = true := by
  intro bs
  induction bs with
  | nil => intro st j hj; simp [runBatches] at hj
  | cons b rest ih =>
    intro st j hj hc
    rw [runBatches] at hj ⊢
    rcases List.mem_append.mp hj with hj | hj
    · have hb := runBatch_establish env config b st j hj hc
      refine runBatches_pres env config _ rest _ ?_
      rw [save_pres]
      exact hb
    · exact ih _ j hj hc

theorem createJobs_entries (nowMs : Nat) (es : List FileEntry) :
    (createJobs nowMs es).map (fun j => j.entry) = es := by
  unfold createJobs
  rw [List.map_map]
  have : ((fun j : ProcessingJob => j.entry) ∘ fun p : Nat × FileEntry =>
      ({ id := "job_" ++ toString nowMs ++ "_" ++ toString p.1, entry := p.2,
         status := JobStatus.pending, retries := 0, error := none,
         startTime := none, endTime := none } : ProcessingJob)) =
      fun p : Nat × FileEntry => p.2 := rfl
  rw [this]
  exact List.enum_map_snd es

theorem runBatch_entries (env : Env) (config : Config) :
    ∀ (batch : List ProcessingJob) (st : ProcessedState),
      (runBatch env config st batch).2.1.map (fun j => j.entry) =
        batch.map (fun j => j.entry) := by
  intro batch
  induction batch with
  | nil => intro st; rfl
  | cons job rest ih =>
    intro st
    rw [runBatch]
    simp only [List.map_cons]
    rw [ih]
    congr 1
    rw [batchJobStep_result, processJob_entry]

theorem runBatches_entries (env : Env) (config : Config) :
    ∀ (bs : List (List ProcessingJob)) (st : ProcessedState),
      (runBatches env config bs st).2.1.map (fun j => j.entry) =
        bs.flatten.map (fun j => j.entry) := by
  intro bs
  induction bs with
  | nil => intro st; rfl
  | cons b rest ih =>
    intro st
    rw [runBatches]
    simp only [List.flatten_cons, List.map_append]
    rw [ih, runBatch_entries]

/-- After a file-phase run in which every job completed, every scan entry is
either an auto-detected URL list (not a file job at all) or hash-matched in
the final ledger. -/
theorem processFiles_covers (env : Env) (config : Config) (st : ProcessedState)
    (entries : List FileEntry)
    (hconc : 1 ≤ config.concurrentJobs)
    (hAll : ∀ j ∈ (processFiles env config st entries).2.1,
      j.status = JobStatus.completed) :
    ∀ entry ∈ entries,
      (strEndsWith entry.path ".txt" && env.isUrlListFile entry.path) = true ∨
      isFileProcessed (processFiles env config st entries).1 entry.path
        (env.fileHash entry.path) = true := by
  intro entry hentry
  by_cases hmem : entry ∈ filterNewFiles env config st entries
  · right
    have hne : (filterNewFiles env config st entries).isEmpty = false := by
      cases hfe : filterNewFiles env config st entries with
      | nil => rw [hfe] at hmem; simp at hmem
      | cons a as => rfl
    have hcpos : 0 < config.concurrentJobs.toNat := by omega
    have hpf : processFiles env config st entries =
        runBatches env config
          (chunks config.concurrentJobs.toNat
            (createJobs env.nowMs (filterNewFiles env config st entries))) st := by
      unfold processFiles
      simp [hne]
    have hmap : (runBatches env config
        (chunks config.concurrentJobs.toNat
          (createJobs env.nowMs (filterNewFiles env config st entries))) st).2.1.map
          (fun j => j.entry) = filterNewFiles env config st entries := by
      rw [runBatches_entries]
      rw [chunks_join _ hcpos]
      exact createJobs_entries env.nowMs _
    have hmem' : entry ∈ (runBatches env config
        (chunks config.concurrentJobs.toNat
          (createJobs env.nowMs (filterNewFiles env config st entries))) st).2.1.map
          (fun j => j.entry) := by
      rw [hmap]; exact hmem
    obtain ⟨j, hjmem, hjent⟩ := List.mem_map.mp hmem'
    have hc : j.status = JobStatus.completed := by
      apply hAll
      rw [hpf]
      exact hjmem
    have := runBatches_establish env config _ st j hjmem hc
    rw [hjent] at this
    rw [hpf]
    exact this
  · unfold filterNewFiles at hmem
    rw [List.mem_filter] at hmem
    push_neg at hmem
    have hfalse := hmem hentry
    by_cases hul : (strEndsWith entry.path ".txt" && env.isUrlListFile entry.path) = true
    · exact Or.inl hul
    · right
      simp only [Bool.not_eq_true] at hul
      have hproc : isFileProcessed st entry.path (env.fileHash entry.path) = true := by
        by_contra hnp
        apply hfalse
        simp only [Bool.not_eq_true] at hnp
        simp [hul, hnp]
      exact processFiles_pres env config st entries entry.path hproc

/-- After the URL phase, every URL-list file with a non-empty parse whose
contained URLs never coincide with its path is hash-matched in the ledger
(either it was skipped because already matched, or its traversal ended in
the unconditional self-mark; either way the match survives the rest of the
phase). -/
theorem processUrlsLoop_establish (env : Env) (config : Config) :
    ∀ (ufs : List (String × List UrlEntry)) (st : ProcessedState)
      (uf : String × List UrlEntry),
      uf ∈ ufs → uf.2.isEmpty = false →
      (∀ uf' ∈ ufs, ∀ u ∈ uf'.2, u.url ≠ uf.1) →
      isFileProcessed (processUrlsLoop env config st ufs).1 uf.1
        (env.fileHash uf.1) = true := by
  intro ufs
  induction ufs with
  | nil => intro st uf hmem; simp at hmem
  | cons hd rest ih =>
    intro st uf hmem hne hdisj
    have hdisjRest : ∀ uf' ∈ rest, ∀ u ∈ uf'.2, u.url ≠ uf.1 :=
      fun uf' h' => hdisj uf' (List.mem_cons_of_mem hd h')
    rw [processUrlsLoop]
    rcases List.mem_cons.mp hmem with hm | hm
    · subst hm
      by_cases hskip : isFileProcessed st uf.1 (env.fileHash uf.1) = true
      · simp only [hskip, if_true]
        exact processUrlsLoop_pres env config uf.1 rest st hdisjRest hskip
      · simp only [hskip, Bool.false_eq_true, if_false]
        exact processUrlsLoop_pres env config uf.1 rest _ hdisjRest
          (processUrlFile_self_matched env config st uf.1 uf.2 hne)
    · by_cases hskip : isFileProcessed st hd.1 (env.fileHash hd.1) = true
      · simp only [hskip, if_true]
        exact ih st uf hm hne hdisjRest
      · simp only [hskip, Bool.false_eq_true, if_false]
        exact ih _ uf hm hne hdisjRest

/-- When every URL-list file is either empty (after parsing) or already
hash-matched, the URL phase is inert: it changes nothing and performs no
effect. -/
theorem processUrlsLoop_inert (env : Env) (config : Config) :
    ∀ (ufs : List (String × List UrlEntry)) (st : ProcessedState),
      (∀ uf ∈ ufs, uf.2.isEmpty = true ∨
        isFileProcessed st uf.1 (env.fileHash uf.1) = true) →
      processUrlsLoop env config st ufs = (st, []) := by
  intro ufs
  induction ufs with
  | nil => intro st _; rfl
  | cons hd rest ih =>
    intro st h
    have hrest : ∀ uf ∈ rest, uf.2.isEmpty = true ∨
        isFileProcessed st uf.1 (env.fileHash uf.1) = true :=
      fun uf h' => h uf (List.mem_cons_of_mem hd h')
    rw [processUrlsLoop]
    by_cases hskip : isFileProcessed st hd.1 (env.fileHash hd.1) = true
    · simp only [hskip, if_true]
      exact ih st hrest
    · simp only [hskip, Bool.false_eq_true, if_false]
      rcases h hd (List.mem_cons_self hd rest) with hemp | hproc
      · have hfile : processUrlFile env config st hd.1 hd.2 = (st, []) := by
          unfold processUrlFile
          simp [hemp]
        rw [hfile]
        rw [ih st hrest]
        rfl
      · exact absurd hproc hskip

theorem processUrls_establish (env : Env) (config : Config) (st : ProcessedState)
    (ufs : List (String × List UrlEntry)) (uf : String × List UrlEntry)
    (hf : config.fetchUrls = true) (hmem : uf ∈ ufs) (hne : uf.2.isEmpty = false)
    (hq : ∀ uf' ∈ ufs, ∀ u ∈ uf'.2, u.url ≠ uf.1) :
    isFileProcessed (processUrls env config st ufs).1 uf.1 (env.fileHash uf.1) = true := by
  unfold processUrls
  simp only [hf, Bool.not_true, Bool.false_eq_true, if_false]
  exact processUrlsLoop_establish env config ufs st uf hmem hne hq

theorem processUrls_inert (env : Env) (config : Config) (st : ProcessedState)
    (ufs : List (String × List UrlEntry))
    (h : config.fetchUrls = true → ∀ uf ∈ ufs, uf.2.isEmpty = true ∨
      isFileProcessed st uf.1 (env.fileHash uf.1) = true) :
    processUrls env config st ufs = (st, []) := by
  unfold processUrls
  by_cases hf : config.fetchUrls
  · simp only [hf, Bool.not_true, Bool.false_eq_true, if_false]
    exact processUrlsLoop_inert env config ufs st (h hf)
  · simp [hf]

theorem processFiles_inert (env : Env) (config : Config) (st : ProcessedState)
    (entries : List FileEntry) (h : filterNewFiles env config st entries = []) :
    processFiles env config st entries = (st, [], []) := by
  unfold processFiles
  rw [h]
  rfl

/-- Claim C8, counterexample: The claim says a second cycle on an unchanged
input tree always invokes the extraction gateway zero times.  Concretely:
with the always-failing gateway, a single unchanged input file is left
without a ledger entry by the first cycle (a failed job writes nothing), so
the second cycle re-queues it and invokes the gateway `maxRetries = 3` more
times — not zero.  (The spec itself elsewhere calls this the intentional
at-least-once retry policy for failing files.) -/
theorem second_cycle_reextracts_counterexample :
    extractCalls (runCycle envFail cfgDefault
      (runCycle envFail cfgDefault (freshState "t0") [] [entryA]).1
      [] [entryA]).2.2 = 3 ∧
    extractCalls (runCycle envFail cfgDefault
      (runCycle envFail cfgDefault (freshState "t0") [] [entryA]).1
      [] [entryA]).2.2 ≠ 0 := by
  constructor <;> decide

/-- Claim C8, amended: Running a cycle twice on an unchanged input tree
(same scan entries, same parsed URL-list files, same content fingerprints
and URL-list detection in both cycles) invokes the extraction gateway zero
times in the second cycle, **provided every job of the first cycle ended
`completed`** (a failed job leaves no ledger entry and is re-queued — the
at-least-once retry policy), the skip-existing check is enabled (its
default), the concurrency limit is in its validated range, and no parsed
URL string coincides with a URL-list file path or an input file path (URL
keys and filesystem keys are distinct key spaces).  Every candidate's fresh
fingerprint then matches its ledger entry from the first cycle, so nothing
is re-queued and no URL-list file is re-traversed. -/
theorem second_cycle_zero_extractions
    (env1 env2 : Env) (config : Config) (st : ProcessedState)
    (urlFiles : List (String × List UrlEntry)) (entries : List FileEntry)
    (hskip : config.skipExisting = true)
    (hconc : 1 ≤ config.concurrentJobs)
    (hfh : ∀ p, env2.fileHash p = env1.fileHash p)
    (hlist : ∀ p, env2.isUrlListFile p = env1.isUrlListFile p)
    (hcomplete : ∀ j ∈ (runCycle env1 config st urlFiles entries).2.1,
      j.status = JobStatus.completed)
    (hdisj : ∀ uf ∈ urlFiles, ∀ u ∈ uf.2,
      (∀ uf' ∈ urlFiles, u.url ≠ uf'.1) ∧ (∀ e ∈ entries, u.url ≠ e.path)) :
    extractCalls (runCycle env2 config (runCycle env1 config st urlFiles entries).1
      urlFiles entries).2.2 = 0 := by
  have hst1 : (runCycle env1 config st urlFiles entries).1 =
      (processFiles env1 config (processUrls env1 config st urlFiles).1 entries).1 := rfl
  have hres1 : (runCycle env1 config st urlFiles entries).2.1 =
      (processFiles env1 config (processUrls env1 config st urlFiles).1 entries).2.1 := rfl
  have hcomplete' : ∀ j ∈ (processFiles env1 config
      (processUrls env1 config st urlFiles).1 entries).2.1,
      j.status = JobStatus.completed := by
    rw [← hres1]; exact hcomplete
  have hcov := processFiles_covers env1 config
    (processUrls env1 config st urlFiles).1 entries hconc hcomplete'
  -- Step A: the second-cycle URL phase is inert.
  have hA : processUrls env2 config
      (processFiles env1 config (processUrls env1 config st urlFiles).1 entries).1
      urlFiles =
      ((processFiles env1 config (processUrls env1 config st urlFiles).1 entries).1,
        []) := by
    apply processUrls_inert
    intro hf uf hmem
    by_cases hemp : uf.2.isEmpty
    · exact Or.inl hemp
    · right
      rw [hfh]
      have hq : ∀ uf' ∈ urlFiles, ∀ u ∈ uf'.2, u.url ≠ uf.1 :=
        fun uf' hm' u hu => (hdisj uf' hm' u hu).1 uf hmem
      have hest : isFileProcessed (processUrls env1 config st urlFiles).1 uf.1
          (env1.fileHash uf.1) = true :=
        processUrls_establish env1 config st urlFiles uf hf hmem
          (by simpa using hemp) hq
      exact processFiles_pres env1 config _ entries uf.1 hest
  -- Step B: the second-cycle file filter rejects every entry.
  have hB : filterNewFiles env2 config
      (processFiles env1 config (processUrls env1 config st urlFiles).1 entries).1
      entries = [] := by
    unfold filterNewFiles
    rw [List.filter_eq_nil_iff]
    intro entry hentry
    rcases hcov entry hentry with hul | hproc
    · have hul2 : (strEndsWith entry.path ".txt" &&
          env2.isUrlListFile entry.path) = true := by
        rw [hlist]; exact hul
      simp [hul2]
    · have hp2 : isFileProcessed
          (processFiles env1 config (processUrls env1 config st urlFiles).1 entries).1
          entry.path (env2.fileHash entry.path) = true := by
        rw [hfh]; exact hproc
      cases hc2 : (strEndsWith entry.path ".txt" && env2.isUrlListFile entry.path) <;>
        simp [hc2, hp2, hskip]
  have hfiles2 := processFiles_inert env2 config
    (processFiles env1 config (processUrls env1 config st urlFiles).1 entries).1
    entries hB
  rw [hst1]
  unfold runCycle
  dsimp only
  rw [hA]
  dsimp only
  rw [hfiles2]
  rfl

/-- Witness for the amended C8: the always-succeeding gateway over one URL
list and one input file; the second cycle performs zero gateway
invocations. -/
theorem second_cycle_zero_extractions_witness :
    cfgDefault.skipExisting = true ∧
    1 ≤ cfgDefault.concurrentJobs ∧
    extractCalls (runCycle envOk cfgDefault
      (runCycle envOk cfgDefault (freshState "t0")
        [("/files/input/urls.txt", [{ url := "https://x.test/a", filename := none }])]
        [entryA]).1
      [("/files/input/urls.txt", [{ url := "https://x.test/a", filename := none }])]
      [entryA]).2.2 = 0 :=
  ⟨rfl, by decide,
   second_cycle_zero_extractions envOk envOk cfgDefault (freshState "t0")
     [("/files/input/urls.txt", [{ url := "https://x.test/a", filename := none }])]
     [entryA] rfl (by decide) (fun _ => rfl) (fun _ => rfl)
     (by decide) (by decide)⟩

end KB
